import Mathlib

/-!
# A verification development of the simple-redis-server RESP codec and command layer

This file shallowly embeds the RESP (REdis Serialization Protocol) frame codec,
the command parser and the command executors of the repository, and proves the
specified properties about them.

Modelling conventions:
* `Vec<u8>` and Rust `String` (its UTF-8 bytes) are modelled as `List Nat`
  (each entry a byte value below 256); equality of Rust strings is equality of
  their byte lists.
* `i64` is modelled as `Int` (no arithmetic that could overflow occurs in the
  embedded code paths).
* `f64` is modelled by the record `F64` capturing exactly the observations the
  embedded code makes of a double: the text of its Rust `{}` (Display) and
  `{:+e}` (signed LowerExp) renderings and the boolean results of the
  comparisons the encoder performs.
-/

set_option maxHeartbeats 1000000
set_option linter.unusedVariables false

namespace RedisSpec

/-- Bytes on the wire (`Vec<u8>` in the source). -/
abbrev Bytes := List Nat

/-- The UTF-8 bytes of an ASCII string literal, used to spell concrete byte strings. -/
def str (s : String) : Bytes := s.data.map Char.toNat

/-- The CRLF terminator `\r\n`. -/
def crlf : Bytes := [13, 10]

/-- Decimal rendering of a natural number: the bytes `format!("{}", n)` produces. -/
def natToBytes (n : Nat) : Bytes :=
  if _h : n < 10 then [48 + n]
  else natToBytes (n / 10) ++ [48 + n % 10]
decreasing_by exact Nat.div_lt_self (by omega) (by omega)

/-- Decimal rendering of a signed integer: the bytes `format!("{}", i)` produces
for an `i64`. -/
def intToBytes (i : Int) : Bytes :=
  if i < 0 then 45 :: natToBytes i.natAbs else natToBytes i.toNat

/-- Accumulate decimal digit bytes into a number. -/
def foldDigits (acc : Nat) (l : Bytes) : Nat :=
  l.foldl (fun a b => a * 10 + (b - 48)) acc

/-- Whether a byte is an ASCII decimal digit. -/
def isDigit (b : Nat) : Bool := 48 ≤ b && b ≤ 57

/-- Modelled from the spec: the decoder (file `resp/decoder.rs`, absent from the
sources) parses "length headers ... parseable as integers". Unsigned decimal parse. -/
def parseNat (l : Bytes) : Option Nat :=
  if !l.isEmpty && l.all isDigit then some (foldDigits 0 l) else none

/-- Modelled from the spec: "integer must be valid signed decimal" (decoder file
absent from the sources). Optionally signed decimal parse. -/
def parseInt (l : Bytes) : Option Int :=
  match l with
  | [] => none
  | b :: rest =>
    if b = 45 then (parseNat rest).map (fun n => -(n : Int))
    else if b = 43 then (parseNat rest).map (fun n => (n : Int))
    else (parseNat l).map (fun n => (n : Int))

theorem natToBytes_shape (n : Nat) :
    ∃ d t, natToBytes n = d :: t ∧ 48 ≤ d ∧ d ≤ 57 := by
  induction n using natToBytes.induct with
  | case1 n h =>
    exact ⟨48 + n, [], by rw [natToBytes]; simp [h], by omega, by omega⟩
  | case2 n h ih =>
    obtain ⟨d, t, hdt, h1, h2⟩ := ih
    exact ⟨d, t ++ [48 + n % 10], by rw [natToBytes]; simp [h, hdt], h1, h2⟩

theorem natToBytes_all_digits (n : Nat) : (natToBytes n).all isDigit = true := by
  induction n using natToBytes.induct with
  | case1 n h =>
    rw [natToBytes]; simp [h, isDigit]; omega
  | case2 n h ih =>
    rw [natToBytes]
    simp only [h, dite_false, List.all_append, ih, List.all_cons, List.all_nil,
      Bool.and_true, Bool.true_and, isDigit]
    have : n % 10 < 10 := Nat.mod_lt _ (by omega)
    simp; omega

theorem foldDigits_natToBytes (n : Nat) :
    ∀ acc, foldDigits acc (natToBytes n) = acc * 10 ^ (natToBytes n).length + n := by
  induction n using natToBytes.induct with
  | case1 n h =>
    intro acc
    rw [natToBytes]
    simp [h, foldDigits]
  | case2 n h ih =>
    intro acc
    rw [natToBytes]
    simp only [h, dite_false]
    unfold foldDigits at *
    rw [List.foldl_append]
    simp only [List.foldl_cons, List.foldl_nil, ih, List.length_append,
      List.length_cons, List.length_nil]
    rw [pow_succ]
    have h10 : 48 + n % 10 - 48 = n % 10 := by omega
    rw [h10]
    have := Nat.div_add_mod n 10
    ring_nf
    omega

theorem parseNat_natToBytes (n : Nat) : parseNat (natToBytes n) = some n := by
  obtain ⟨d, t, hdt, _, _⟩ := natToBytes_shape n
  have hall := natToBytes_all_digits n
  have hfold := foldDigits_natToBytes n 0
  simp only [parseNat, hall, Bool.and_true]
  rw [hdt] at hfold ⊢
  simp only [List.isEmpty_cons, Bool.not_false, if_pos rfl]
  simp only [zero_mul, zero_add] at hfold
  simp [hfold]

theorem parseInt_intToBytes (i : Int) : parseInt (intToBytes i) = some i := by
  unfold intToBytes
  split
  · next hneg =>
    simp [parseInt, parseNat_natToBytes]
    rw [abs_of_neg (by omega : i < 0)]
    ring
  · next hpos =>
    obtain ⟨d, t, hdt, h1, h2⟩ := natToBytes_shape i.toNat
    rw [hdt]
    simp only [parseInt, if_neg (by omega : ¬ d = 45), if_neg (by omega : ¬ d = 43)]
    rw [← hdt, parseNat_natToBytes]
    simp
    omega

/-! ## UTF-8

Rust `String::from_utf8` (strict validation) and `String::from_utf8_lossy`
(replacement of each invalid maximal subpart by U+FFFD) are modelled byte-wise,
following the validation table of `core::str::run_utf8_validation`. -/

/-- Whether a byte is a UTF-8 continuation byte (`0x80..=0xBF`). -/
def isCont (b : Nat) : Bool := 128 ≤ b && b ≤ 191

/-- Allowed second byte of a three-byte sequence headed by `b`
(`0xE0`: `0xA0..=0xBF`; `0xED`: `0x80..=0x9F`; otherwise any continuation). -/
def isCont2 (b c : Nat) : Bool :=
  if b = 224 then 160 ≤ c && c ≤ 191
  else if b = 237 then 128 ≤ c && c ≤ 159
  else isCont c

/-- Allowed second byte of a four-byte sequence headed by `b`
(`0xF0`: `0x90..=0xBF`; `0xF4`: `0x80..=0x8F`; otherwise any continuation). -/
def isCont3 (b c : Nat) : Bool :=
  if b = 240 then 144 ≤ c && c ≤ 191
  else if b = 244 then 128 ≤ c && c ≤ 143
  else isCont c

/-- Length (1 to 4) of the complete, valid UTF-8 scalar encoding at the front of
the byte list, or `none` when the front is not one. -/
def utf8Front : Bytes → Option Nat
  | [] => none
  | b :: rest =>
    if b < 128 then some 1
    else if b < 194 then none
    else if b ≤ 223 then
      match rest with
      | c :: _ => if isCont c then some 2 else none
      | [] => none
    else if b ≤ 239 then
      match rest with
      | c :: rest2 =>
        if isCont2 b c then
          match rest2 with
          | d :: _ => if isCont d then some 3 else none
          | [] => none
        else none
      | [] => none
    else if b ≤ 244 then
      match rest with
      | c :: rest2 =>
        if isCont3 b c then
          match rest2 with
          | d :: rest3 =>
            if isCont d then
              match rest3 with
              | e :: _ => if isCont e then some 4 else none
              | [] => none
            else none
          | [] => none
        else none
      | [] => none
    else none

theorem utf8Front_pos (l : Bytes) (k : Nat) (h : utf8Front l = some k) : 0 < k := by
  match l with
  | [] => simp [utf8Front] at h
  | b :: rest =>
    unfold utf8Front at h
    repeat' split at h
    all_goals simp_all
    all_goals omega

theorem utf8Front_le (l : Bytes) (k : Nat) (h : utf8Front l = some k) : k ≤ l.length := by
  match l with
  | [] => simp [utf8Front] at h
  | b :: rest =>
    unfold utf8Front at h
    repeat' split at h
    all_goals simp_all
    all_goals omega

/-- How many bytes Rust skips (replacing them with one U+FFFD) at an invalid or
incomplete position: the valid prefix of the attempted sequence, at least one byte
(`Utf8Error::error_len` semantics as used by `String::from_utf8_lossy`). -/
def utf8ErrLen : Bytes → Nat
  | b :: c :: d :: _ =>
    if 224 ≤ b && b ≤ 239 && isCont2 b c then 2
    else if 240 ≤ b && b ≤ 244 && isCont3 b c then (if isCont d then 3 else 2)
    else 1
  | [b, c] =>
    if 224 ≤ b && b ≤ 239 && isCont2 b c then 2
    else if 240 ≤ b && b ≤ 244 && isCont3 b c then 2
    else 1
  | _ => 1

theorem utf8ErrLen_pos (l : Bytes) : 0 < utf8ErrLen l := by
  unfold utf8ErrLen
  repeat' split
  all_goals omega

/-- Structural helper for `isValidUtf8`: the fuel only bounds the number of
scalars and is irrelevant from `l.length` up (each scalar takes at least one
byte). -/
def isValidUtf8Go : Nat → Bytes → Bool
  | _, [] => true
  | 0, _ :: _ => false
  | fuel + 1, b :: t =>
    match utf8Front (b :: t) with
    | some k => isValidUtf8Go fuel ((b :: t).drop k)
    | none => false

/-- Rust `String::from_utf8` validity: the bytes are a concatenation of valid
UTF-8 scalar encodings. -/
def isValidUtf8 (l : Bytes) : Bool := isValidUtf8Go l.length l

/-- The UTF-8 bytes of U+FFFD REPLACEMENT CHARACTER. -/
def fffd : Bytes := [239, 191, 189]

/-- Structural helper for `utf8Lossy` (fuel as in `isValidUtf8Go`). -/
def utf8LossyGo : Nat → Bytes → Bytes
  | _, [] => []
  | 0, _ :: _ => []
  | fuel + 1, b :: t =>
    match utf8Front (b :: t) with
    | some k => (b :: t).take k ++ utf8LossyGo fuel ((b :: t).drop k)
    | none => fffd ++ utf8LossyGo fuel ((b :: t).drop (utf8ErrLen (b :: t)))

/-- Rust `String::from_utf8_lossy`, as the UTF-8 bytes of its result: valid
scalars are copied; each invalid maximal subpart is replaced by U+FFFD. -/
def utf8Lossy (l : Bytes) : Bytes := utf8LossyGo l.length l

theorem utf8LossyGo_of_valid :
    ∀ fuel l, l.length ≤ fuel → isValidUtf8Go fuel l = true → utf8LossyGo fuel l = l := by
  intro fuel
  induction fuel with
  | zero =>
    intro l hl hv
    cases l with
    | nil => rfl
    | cons b t => simp at hl
  | succ n ih =>
    intro l hl hv
    cases l with
    | nil => rfl
    | cons b t =>
      rw [isValidUtf8Go] at hv
      rw [utf8LossyGo]
      split at hv
      · next k hk =>
        have hkpos := utf8Front_pos (b :: t) k hk
        have hkle := utf8Front_le (b :: t) k hk
        simp only [List.length_cons] at hl hkle
        rw [ih ((b :: t).drop k) (by simp; omega) hv, List.take_append_drop]
      · simp at hv

theorem utf8Lossy_of_valid (l : Bytes) (h : isValidUtf8 l = true) : utf8Lossy l = l :=
  utf8LossyGo_of_valid l.length l le_rfl h

/-! ## Doubles

An `f64` is embedded as the record of the observations the repository's code
makes of it: its two textual renderings and the results of the comparisons
performed by `impl RespEncoder for f64` (`self.abs() > 1e+8`,
`self.abs() < 1e-8`), plus the predicates needed to state magnitude conditions
(`|d| == 1e8`, `d == 0`, `d.is_nan()`). -/

/-- Model of an `f64` value `d`:
* `disp` — the UTF-8 bytes of `format!("{}", d)` (Rust `Display`, plain decimal,
  shortest round-tripping digits);
* `expDisp` — the UTF-8 bytes of `format!("{:+e}", d)` (signed `LowerExp`,
  mantissa always signed, exponent signed only when negative);
* `absGt1e8` — the value of `d.abs() > 1e+8`;
* `absLt1em8` — the value of `d.abs() < 1e-8`;
* `absEq1e8` — the value of `d.abs() == 1e+8`;
* `isZero` — the value of `d == 0.0`;
* `isNaN` — the value of `d.is_nan()`. -/
structure F64 where
  disp : Bytes
  expDisp : Bytes
  absGt1e8 : Bool
  absLt1em8 : Bool
  absEq1e8 : Bool
  isZero : Bool
  isNaN : Bool
deriving DecidableEq, Repr

/-- IEEE-754 coherence of the observation record: a NaN compares false under
every comparison; zero has `|d| < 1e-8`; for a non-NaN the three `|d|`-versus-`1e8`
comparisons are mutually exclusive trichotomy cases. -/
def F64.WF (d : F64) : Prop :=
  (d.isNaN = true → d.absGt1e8 = false ∧ d.absLt1em8 = false ∧ d.absEq1e8 = false
    ∧ d.isZero = false) ∧
  (d.isZero = true → d.absLt1em8 = true ∧ d.absGt1e8 = false ∧ d.absEq1e8 = false) ∧
  (d.isNaN = false →
    ((d.absGt1e8 = true ∧ d.absLt1em8 = false ∧ d.absEq1e8 = false) ∨
     (d.absGt1e8 = false ∧ d.absEq1e8 = true ∧ d.absLt1em8 = false) ∨
     (d.absGt1e8 = false ∧ d.absEq1e8 = false)))

/-- The double `123.456`: `{}` gives `123.456`, `{:+e}` gives `+1.23456e2`. -/
def f64OneTwoThree : F64 :=
  ⟨str "123.456", str "+1.23456e2", false, false, false, false, false⟩

/-- The double `1.23456e+8` (123456000, greater than 1e8): `{:+e}` gives `+1.23456e8`. -/
def f64Sci8 : F64 :=
  ⟨str "123456000", str "+1.23456e8", true, false, false, false, false⟩

/-- The double `-1.23456e-9` (magnitude below 1e-8): `{:+e}` gives `-1.23456e-9`. -/
def f64NegTiny : F64 :=
  ⟨str "-0.00000000123456", str "-1.23456e-9", false, true, false, false, false⟩

/-- The double `-123.456`. -/
def f64NegOneTwoThree : F64 :=
  ⟨str "-123.456", str "-1.23456e2", false, false, false, false, false⟩

/-- The double `0.0`: `0.0.abs() < 1e-8` holds, `{}` gives `0`, `{:+e}` gives `+0e0`. -/
def f64Zero : F64 :=
  ⟨str "0", str "+0e0", false, true, false, true, false⟩

/-- The double `1e8` exactly: neither `> 1e8` nor `< 1e-8`; `{}` gives `100000000`. -/
def f64OneE8 : F64 :=
  ⟨str "100000000", str "+1e8", false, false, true, false, false⟩

/-- The double `-123456.789` (used by the map-encoding test). -/
def f64NegBig : F64 :=
  ⟨str "-123456.789", str "-1.23456789e5", false, false, false, false, false⟩

/-- An `f64` NaN: every comparison on it is false; `{}` gives `NaN`. -/
def f64NaN : F64 :=
  ⟨str "NaN", str "+NaN", false, false, false, false, true⟩

/-- The payload text `impl RespEncoder for f64` emits for `d`: the `{:+e}`
rendering when `self.abs() > 1e+8 || self.abs() < 1e-8`, else the `{}` rendering. -/
def F64.text (d : F64) : Bytes :=
  if d.absGt1e8 || d.absLt1em8 then d.expDisp else d.disp

/-! ## Frames and the encoder

`RespFrame` (resp/mod.rs) and `impl RespEncoder for ...` (resp/encoder.rs).
Rust `String` payloads are their UTF-8 bytes; `RespMap`, a
`BTreeMap<String, RespFrame>`, is its sorted association list. -/

/-- The 12 RESP frame variants (`enum RespFrame`, resp/mod.rs). -/
inductive RespFrame where
  | simpleString (s : Bytes)
  | error (s : Bytes)
  | integer (i : Int)
  | bulkString (b : Bytes)
  | nullBulkString
  | array (items : List RespFrame)
  | nullArray
  | null
  | boolean (b : Bool)
  | double (d : F64)
  | map (entries : List (Bytes × RespFrame))
  | set (items : List RespFrame)

/-- Byte-lexicographic order on byte strings: Rust `Ord` on `String`/`Vec<u8>`,
the key order of the `BTreeMap` behind `RespMap`. -/
def bytesLt : Bytes → Bytes → Bool
  | [], [] => false
  | [], _ :: _ => true
  | _ :: _, [] => false
  | a :: as, b :: bs => if a < b then true else if a = b then bytesLt as bs else false

/-- `BTreeMap::insert` on the sorted-association-list model of `RespMap`. -/
def mapInsert (k : Bytes) (v : RespFrame) :
    List (Bytes × RespFrame) → List (Bytes × RespFrame)
  | [] => [(k, v)]
  | (k2, v2) :: rest =>
    if bytesLt k k2 then (k, v) :: (k2, v2) :: rest
    else if k = k2 then (k, v) :: rest
    else (k2, v2) :: mapInsert k v rest

mutual

/-- `impl RespEncoder` for every variant (resp/encoder.rs): simple string
`+s\r\n`; error `-s\r\n`; integer `:i\r\n`; bulk string `$len\r\n..\r\n`; null
bulk string `$-1\r\n`; array `*n\r\n` then elements; null array `*-1\r\n`; null
`_\r\n`; boolean `#t\r\n`/`#f\r\n`; double `,` + `{:+e}` text when
`self.abs() > 1e+8 || self.abs() < 1e-8` else `{}` text + `\r\n`; map `%n\r\n`
then each entry in `BTreeMap` (ascending key) order as a SimpleString-encoded key
followed by the encoded value; set `~n\r\n` then elements. -/
def encodeFrame : RespFrame → Bytes
  | .simpleString s => [43] ++ s ++ crlf
  | .error s => [45] ++ s ++ crlf
  | .integer i => [58] ++ intToBytes i ++ crlf
  | .bulkString b => [36] ++ natToBytes b.length ++ crlf ++ b ++ crlf
  | .nullBulkString => [36, 45, 49] ++ crlf
  | .array items => [42] ++ natToBytes items.length ++ crlf ++ encodeItems items
  | .nullArray => [42, 45, 49] ++ crlf
  | .null => [95] ++ crlf
  | .boolean true => [35, 116] ++ crlf
  | .boolean false => [35, 102] ++ crlf
  | .double d => [44] ++ F64.text d ++ crlf
  | .map entries => [37] ++ natToBytes entries.length ++ crlf ++ encodeEntries entries
  | .set items => [126] ++ natToBytes items.length ++ crlf ++ encodeItems items

/-- Concatenated encodings of a list of frames (the encoder's `for frame in self.0`). -/
def encodeItems : List RespFrame → Bytes
  | [] => []
  | f :: fs => encodeFrame f ++ encodeItems fs

/-- Concatenated encodings of map entries: `SimpleString::new(key).encode()`
followed by `value.encode()` for each entry. -/
def encodeEntries : List (Bytes × RespFrame) → Bytes
  | [] => []
  | (k, v) :: rest => ([43] ++ k ++ crlf) ++ encodeFrame v ++ encodeEntries rest

end

/-! ## Decoder

The decoder file `resp/decoder.rs` is absent from the sources; the decoder below
is modelled from the spec (§4.2): first-byte dispatch, simple framed payloads
scanned to the terminating CRLF, length-prefixed frames with a decimal header,
`-1` null sentinels for `$` and `*`, recursive element decoding, and the
Incomplete/Malformed distinction. Double payloads are parsed by a parameter
`pd`, standing for Rust `str::parse::<f64>` (std library behaviour); `fuel`
bounds the recursion depth and is irrelevant once at least the frame depth. -/

/-- Decoder outcome: `incomplete` (more bytes needed) vs `malformed` (protocol
violation), per spec §4.2. -/
inductive DecodeOutcome where
  | incomplete
  | malformed
deriving DecidableEq, Repr

/-- Modelled from the spec: "scan for the terminating CRLF; if absent,
Incomplete". Returns the payload before the first CRLF and the bytes after it. -/
def splitLine : Bytes → Except DecodeOutcome (Bytes × Bytes)
  | [] => .error .incomplete
  | [_] => .error .incomplete
  | 13 :: 10 :: rest => .ok ([], rest)
  | b :: rest => do
    let (line, r) ← splitLine rest
    .ok (b :: line, r)

mutual

/-- Depth of frame nesting: enough decoder fuel for the frame. -/
def frameDepth : RespFrame → Nat
  | .array items => itemsDepth items + 1
  | .map entries => entriesDepth entries + 1
  | .set items => itemsDepth items + 1
  | _ => 1

/-- Largest depth among a list of frames. -/
def itemsDepth : List RespFrame → Nat
  | [] => 0
  | f :: fs => max (frameDepth f) (itemsDepth fs)

/-- Largest depth among the values of map entries. -/
def entriesDepth : List (Bytes × RespFrame) → Nat
  | [] => 0
  | e :: rest => max (frameDepth e.2) (entriesDepth rest)

end

mutual

/-- Modelled from the spec (§4.2, decoder file absent): decode one frame from the
front of the buffer. Dispatch on the first byte (`+ - : $ * _ # , % ~`; anything
else is Malformed); simple framed variants scan to CRLF and parse the payload;
length-prefixed variants parse a signed decimal header, where `-1` yields the
null sentinel for `$`/`*` and a non-negative count drives recursive decoding.
Returns the decoded frame and the unconsumed remainder of the buffer. -/
def decodeFrame (pd : Bytes → Option F64) :
    Nat → Bytes → Except DecodeOutcome (RespFrame × Bytes)
  | 0, _ => .error .incomplete
  | _ + 1, [] => .error .incomplete
  | fuel + 1, b :: rest =>
    if b = 43 then do
      let (line, r) ← splitLine rest
      .ok (.simpleString (utf8Lossy line), r)
    else if b = 45 then do
      let (line, r) ← splitLine rest
      .ok (.error (utf8Lossy line), r)
    else if b = 58 then do
      let (line, r) ← splitLine rest
      match parseInt line with
      | some i => .ok (.integer i, r)
      | none => .error .malformed
    else if b = 36 then do
      let (line, r) ← splitLine rest
      match parseInt line with
      | some len =>
        if len = -1 then .ok (.nullBulkString, r)
        else if len < 0 then .error .malformed
        else
          if r.length < len.toNat + 2 then .error .incomplete
          else
            match r.drop len.toNat with
            | 13 :: 10 :: r2 => .ok (.bulkString (r.take len.toNat), r2)
            | _ => .error .malformed
      | none => .error .malformed
    else if b = 42 then do
      let (line, r) ← splitLine rest
      match parseInt line with
      | some len =>
        if len = -1 then .ok (.nullArray, r)
        else if len < 0 then .error .malformed
        else do
          let (items, r2) ← decodeItems pd fuel len.toNat r
          .ok (.array items, r2)
      | none => .error .malformed
    else if b = 95 then do
      let (line, r) ← splitLine rest
      if line = [] then .ok (.null, r) else .error .malformed
    else if b = 35 then do
      let (line, r) ← splitLine rest
      if line = [116] then .ok (.boolean true, r)
      else if line = [102] then .ok (.boolean false, r)
      else .error .malformed
    else if b = 44 then do
      let (line, r) ← splitLine rest
      match pd line with
      | some d => .ok (.double d, r)
      | none => .error .malformed
    else if b = 37 then do
      let (line, r) ← splitLine rest
      match parseInt line with
      | some len =>
        if len < 0 then .error .malformed
        else do
          let (entries, r2) ← decodeEntries pd fuel len.toNat r
          .ok (.map (entries.foldl (fun m e => mapInsert e.1 e.2 m) []), r2)
      | none => .error .malformed
    else if b = 126 then do
      let (line, r) ← splitLine rest
      match parseInt line with
      | some len =>
        if len < 0 then .error .malformed
        else do
          let (items, r2) ← decodeItems pd fuel len.toNat r
          .ok (.set items, r2)
      | none => .error .malformed
    else .error .malformed
termination_by fuel bytes => (fuel, 0, 0)

/-- Modelled from the spec: recursively decode `n` nested frames, propagating
Incomplete/Malformed immediately. -/
def decodeItems (pd : Bytes → Option F64) :
    Nat → Nat → Bytes → Except DecodeOutcome (List RespFrame × Bytes)
  | _, 0, bytes => .ok ([], bytes)
  | fuel, n + 1, bytes => do
    let (f, r) ← decodeFrame pd fuel bytes
    let (fs, r2) ← decodeItems pd fuel n r
    .ok (f :: fs, r2)
termination_by fuel n bytes => (fuel, 1, n)

/-- Modelled from the spec: "each entry requiring a SimpleString-typed key decode
followed by a value decode", `n` times. -/
def decodeEntries (pd : Bytes → Option F64) :
    Nat → Nat → Bytes → Except DecodeOutcome (List (Bytes × RespFrame) × Bytes)
  | _, 0, bytes => .ok ([], bytes)
  | fuel, n + 1, bytes =>
    match bytes with
    | b :: kb =>
      if b = 43 then do
        let (k, r) ← splitLine kb
        let (v, r2) ← decodeFrame pd fuel r
        let (es, r3) ← decodeEntries pd fuel n r2
        .ok ((utf8Lossy k, v) :: es, r3)
      else .error .malformed
    | [] => .error .incomplete
termination_by fuel n bytes => (fuel, 1, n)

end

/-- No CR and no LF byte occurs. -/
def noCRLF (s : Bytes) : Bool := s.all (fun b => !(b = 13) && !(b = 10))

/-- A valid SimpleString/Error payload: no CR/LF (the claim's proviso) and valid
UTF-8 (the invariant of a Rust `String`). -/
def simpleTextOK (s : Bytes) : Bool := noCRLF s && isValidUtf8 s

/-- Strictly ascending keys: the invariant of the sorted association list
modelling a `BTreeMap`. -/
def keysSorted : List (Bytes × RespFrame) → Bool
  | [] => true
  | [_] => true
  | (k1, _) :: (k2, v2) :: rest => bytesLt k1 k2 && keysSorted ((k2, v2) :: rest)

mutual

/-- The frame is the image of an actual Rust `RespFrame` value whose
SimpleString/Error payloads (and map keys) contain no CR/LF, and the double
parser `pd` parses each embedded double's canonical text back to it (Rust's
float formatting/parsing round-trip guarantee). -/
def frameOK (pd : Bytes → Option F64) : RespFrame → Bool
  | .simpleString s => simpleTextOK s
  | .error s => simpleTextOK s
  | .double d => noCRLF (F64.text d) && pd (F64.text d) == some d
  | .array items => itemsOK pd items
  | .set items => itemsOK pd items
  | .map entries => keysSorted entries && entriesOK pd entries
  | _ => true

/-- `frameOK` for every element. -/
def itemsOK (pd : Bytes → Option F64) : List RespFrame → Bool
  | [] => true
  | f :: fs => frameOK pd f && itemsOK pd fs

/-- Each entry has a well-formed SimpleString key and a `frameOK` value. -/
def entriesOK (pd : Bytes → Option F64) : List (Bytes × RespFrame) → Bool
  | [] => true
  | (k, v) :: rest => simpleTextOK k && frameOK pd v && entriesOK pd rest

end

/-! ## Helper lemmas for the round-trip proof -/

/-- No CR byte occurs. -/
def noCR (s : Bytes) : Bool := s.all (fun b => !(b = 13))

theorem noCR_of_noCRLF (s : Bytes) (h : noCRLF s = true) : noCR s = true := by
  simp only [noCRLF, noCR, List.all_eq_true] at *
  intro b hb
  have := h b hb
  simp at this ⊢
  omega

theorem splitLine_append (s : Bytes) (r : Bytes) (hs : noCR s = true) :
    splitLine (s ++ 13 :: 10 :: r) = .ok (s, r) := by
  induction s with
  | nil => rfl
  | cons b bs ih =>
    simp only [noCR, List.all_cons, Bool.and_eq_true, Bool.not_eq_true',
      decide_eq_false_iff_not] at hs
    obtain ⟨hb, hbs⟩ := hs
    have ih2 := ih (by simp [noCR, hbs])
    simp only [List.cons_append]
    rw [splitLine]
    · rw [ih2]
      rfl
    · intro h1
      exact absurd h1 (by simp)
    · intro rest1 hb13 hrest
      exact hb hb13

theorem noCR_natToBytes (n : Nat) : noCR (natToBytes n) = true := by
  have h := natToBytes_all_digits n
  simp only [noCR, List.all_eq_true] at *
  intro b hb
  have := h b hb
  simp only [isDigit, Bool.and_eq_true, decide_eq_true_eq] at this
  simp
  omega

theorem noCR_intToBytes (i : Int) : noCR (intToBytes i) = true := by
  rw [intToBytes]
  split
  · simp only [noCR, List.all_cons]
    have := noCR_natToBytes i.natAbs
    simp only [noCR] at this
    simp [this]
  · exact noCR_natToBytes i.toNat

theorem parseInt_natToBytes (n : Nat) : parseInt (natToBytes n) = some (n : Int) := by
  have h := parseInt_intToBytes (n : Int)
  rwa [intToBytes, if_neg (by omega), Int.toNat_natCast] at h

theorem frameDepth_pos (f : RespFrame) : 1 ≤ frameDepth f := by
  cases f <;> simp [frameDepth]

theorem itemsDepth_bound (items : List RespFrame) :
    ∀ f ∈ items, frameDepth f ≤ itemsDepth items := by
  induction items with
  | nil => simp
  | cons g gs ih =>
    intro f hf
    rcases List.mem_cons.mp hf with rfl | h
    · exact le_trans le_rfl (by rw [itemsDepth]; exact le_max_left _ _)
    · exact le_trans (ih f h) (by rw [itemsDepth]; exact le_max_right _ _)

theorem entriesDepth_bound (entries : List (Bytes × RespFrame)) :
    ∀ e ∈ entries, frameDepth e.2 ≤ entriesDepth entries := by
  induction entries with
  | nil => simp
  | cons g gs ih =>
    intro e he
    rcases List.mem_cons.mp he with rfl | h
    · exact le_trans le_rfl (by rw [entriesDepth]; exact le_max_left _ _)
    · exact le_trans (ih e h) (by rw [entriesDepth]; exact le_max_right _ _)

theorem bytesLt_irrefl (a : Bytes) : bytesLt a a = false := by
  induction a with
  | nil => rfl
  | cons x xs ih => simp [bytesLt, ih]

theorem bytesLt_asymm : ∀ a b : Bytes, bytesLt a b = true → bytesLt b a = false := by
  intro a
  induction a with
  | nil =>
    intro b hb
    cases b with
    | nil => simp [bytesLt] at hb
    | cons y ys => rfl
  | cons x xs ih =>
    intro b hb
    cases b with
    | nil => simp [bytesLt] at hb
    | cons y ys =>
      simp only [bytesLt] at hb ⊢
      split at hb
      · next hxy =>
        rw [if_neg (by omega), if_neg (by omega)]
      · split at hb
        · next hne hxe =>
          subst hxe
          rw [if_neg (by omega), if_pos rfl]
          exact ih ys hb
        · simp at hb

theorem bytesLt_nil (b : Bytes) : bytesLt b [] = false := by
  cases b <;> rfl

theorem bytesLt_trans : ∀ a b c : Bytes,
    bytesLt a b = true → bytesLt b c = true → bytesLt a c = true := by
  intro a
  induction a with
  | nil =>
    intro b c hab hbc
    cases c with
    | nil => rw [bytesLt_nil] at hbc; exact absurd hbc (by simp)
    | cons z zs => rfl
  | cons x xs ih =>
    intro b c hab hbc
    cases b with
    | nil => simp [bytesLt] at hab
    | cons y ys =>
      cases c with
      | nil => rw [bytesLt_nil] at hbc; exact absurd hbc (by simp)
      | cons z zs =>
        simp only [bytesLt] at hab hbc ⊢
        split at hab
        · next hxy =>
          split at hbc
          · next hyz => rw [if_pos (by omega)]
          · split at hbc
            · next h1 h2 => subst h2; rw [if_pos (by omega)]
            · simp at hbc
        · split at hab
          · next h1 h2 =>
            subst h2
            split at hbc
            · next hyz => rw [if_pos (by omega)]
            · split at hbc
              · next h3 h4 =>
                subst h4
                rw [if_neg h1, if_pos rfl]
                exact ih ys zs hab hbc
              · simp at hbc
          · simp at hab

theorem mapInsert_append_max (l : List (Bytes × RespFrame)) (k : Bytes) (v : RespFrame)
    (h : ∀ e ∈ l, bytesLt e.1 k = true) : mapInsert k v l = l ++ [(k, v)] := by
  induction l with
  | nil => rfl
  | cons e l2 ih =>
    obtain ⟨k2, v2⟩ := e
    have h2 : bytesLt k2 k = true := h (k2, v2) (List.mem_cons_self _ _)
    have hnk : bytesLt k k2 = false := bytesLt_asymm _ _ h2
    have hne : ¬ k = k2 := by
      rintro rfl
      rw [bytesLt_irrefl] at h2
      exact absurd h2 (by simp)
    simp only [mapInsert, hnk, Bool.false_eq_true, if_false, if_neg hne]
    rw [ih (fun e he => h e (List.mem_cons_of_mem _ he))]
    simp

theorem keysSorted_cons (k : Bytes) (v : RespFrame) (rest : List (Bytes × RespFrame))
    (h : keysSorted ((k, v) :: rest) = true) :
    keysSorted rest = true ∧ ∀ e ∈ rest, bytesLt k e.1 = true := by
  induction rest generalizing k v with
  | nil => exact ⟨rfl, by simp⟩
  | cons e2 rest2 ih =>
    obtain ⟨k2, v2⟩ := e2
    simp only [keysSorted, Bool.and_eq_true] at h
    obtain ⟨h1, h2⟩ := h
    obtain ⟨hs2, hall2⟩ := ih k2 v2 h2
    refine ⟨h2, ?_⟩
    intro e he
    rcases List.mem_cons.mp he with rfl | he2
    · exact h1
    · exact bytesLt_trans _ _ _ h1 (hall2 e he2)

theorem foldl_mapInsert : ∀ (l acc : List (Bytes × RespFrame)),
    (∀ e ∈ acc, ∀ g ∈ l, bytesLt e.1 g.1 = true) → keysSorted l = true →
    List.foldl (fun m e => mapInsert e.1 e.2 m) acc l = acc ++ l := by
  intro l
  induction l with
  | nil => intro acc _ _; simp
  | cons e l2 ih =>
    intro acc hcross hsort
    obtain ⟨k, v⟩ := e
    obtain ⟨hsort2, hall⟩ := keysSorted_cons k v l2 hsort
    rw [List.foldl_cons]
    rw [show mapInsert (k, v).1 (k, v).2 acc = acc ++ [(k, v)] from
      mapInsert_append_max acc k v (fun x hx => hcross x hx (k, v) (List.mem_cons_self _ _))]
    rw [ih (acc ++ [(k, v)]) ?_ hsort2]
    · simp
    · intro x hx g hg
      rcases List.mem_append.mp hx with h1 | h2
      · exact hcross x h1 g (List.mem_cons_of_mem _ hg)
      · simp only [List.mem_singleton] at h2
        subst h2
        exact hall g hg

/-! ## Round-trip: decoding an encoding -/

/-- Binding a successful `Except` computation reduces. -/
theorem ok_bind {e a b : Type} (x : a) (g : a → Except e b) :
    ((Except.ok x : Except e a) >>= g) = g x := rfl

theorem decodeItems_encodeItems (pd : Bytes → Option F64) (fuel : Nat)
    (IH : ∀ f rest, frameOK pd f = true → frameDepth f ≤ fuel →
      decodeFrame pd fuel (encodeFrame f ++ rest) = .ok (f, rest)) :
    ∀ items rest, itemsOK pd items = true → itemsDepth items ≤ fuel →
      decodeItems pd fuel items.length (encodeItems items ++ rest) = .ok (items, rest) := by
  intro items
  induction items with
  | nil => intro rest _ _; simp [encodeItems, decodeItems]
  | cons f fs ih =>
    intro rest hOK hd
    simp only [itemsOK, Bool.and_eq_true] at hOK
    rw [itemsDepth] at hd
    have hd1 : frameDepth f ≤ fuel := le_trans (le_max_left _ _) hd
    have hd2 : itemsDepth fs ≤ fuel := le_trans (le_max_right _ _) hd
    rw [List.length_cons, encodeItems, List.append_assoc]
    rw [decodeItems]
    rw [IH f _ hOK.1 hd1]
    simp only [ok_bind]
    rw [ih _ hOK.2 hd2]
    simp only [ok_bind]

theorem decodeEntries_encodeEntries (pd : Bytes → Option F64) (fuel : Nat)
    (IH : ∀ f rest, frameOK pd f = true → frameDepth f ≤ fuel →
      decodeFrame pd fuel (encodeFrame f ++ rest) = .ok (f, rest)) :
    ∀ entries rest, entriesOK pd entries = true → entriesDepth entries ≤ fuel →
      decodeEntries pd fuel entries.length (encodeEntries entries ++ rest) = .ok (entries, rest) := by
  intro entries
  induction entries with
  | nil =>
    intro rest _ _
    rw [show encodeEntries [] ++ rest = rest from by rw [encodeEntries]; rfl]
    rw [decodeEntries.eq_def]
    rfl
  | cons e es ih =>
    obtain ⟨k, v⟩ := e
    intro rest hOK hd
    simp only [entriesOK, Bool.and_eq_true] at hOK
    obtain ⟨⟨hk, hv⟩, hes⟩ := hOK
    rw [entriesDepth] at hd
    have hd1 : frameDepth v ≤ fuel := le_trans (le_max_left _ _) hd
    have hd2 : entriesDepth es ≤ fuel := le_trans (le_max_right _ _) hd
    simp only [simpleTextOK, Bool.and_eq_true] at hk
    have hkCR := noCR_of_noCRLF k hk.1
    rw [List.length_cons, encodeEntries]
    simp only [crlf, List.append_assoc, List.cons_append, List.nil_append]
    rw [decodeEntries]
    rw [if_pos rfl]
    rw [splitLine_append k _ hkCR]
    simp only [ok_bind]
    rw [IH v _ hv hd1]
    simp only [ok_bind]
    rw [ih _ hes hd2]
    simp only [ok_bind]
    rw [utf8Lossy_of_valid k hk.2]

theorem decodeFrame_encodeFrame (pd : Bytes → Option F64) :
    ∀ fuel f rest, frameOK pd f = true → frameDepth f ≤ fuel →
      decodeFrame pd fuel (encodeFrame f ++ rest) = .ok (f, rest) := by
  intro fuel
  induction fuel with
  | zero =>
    intro f rest _ hd
    have := frameDepth_pos f
    omega
  | succ fuel ih =>
    intro f rest hOK hd
    cases f with
    | simpleString s =>
      simp only [frameOK, simpleTextOK, Bool.and_eq_true] at hOK
      simp only [encodeFrame, crlf, List.append_assoc, List.cons_append, List.nil_append]
      rw [decodeFrame]
      rw [splitLine_append s _ (noCR_of_noCRLF s hOK.1)]
      simp [ok_bind, utf8Lossy_of_valid s hOK.2]
    | error s =>
      simp only [frameOK, simpleTextOK, Bool.and_eq_true] at hOK
      simp only [encodeFrame, crlf, List.append_assoc, List.cons_append, List.nil_append]
      rw [decodeFrame]
      rw [splitLine_append s _ (noCR_of_noCRLF s hOK.1)]
      simp [ok_bind, utf8Lossy_of_valid s hOK.2]
    | integer i =>
      simp only [encodeFrame, crlf, List.append_assoc, List.cons_append, List.nil_append]
      rw [decodeFrame]
      rw [splitLine_append _ _ (noCR_intToBytes i)]
      simp [ok_bind, parseInt_intToBytes i]
    | bulkString b =>
      simp only [encodeFrame, crlf, List.append_assoc, List.cons_append, List.nil_append]
      rw [decodeFrame]
      rw [splitLine_append _ _ (noCR_natToBytes b.length)]
      simp only [ok_bind, parseInt_natToBytes b.length]
      have h1 : ¬ ((b.length : Int) = -1) := by omega
      have h2 : ¬ ((b.length : Int) < 0) := by omega
      have h3 : ¬ ((b ++ 13 :: 10 :: rest).length < (b.length : Int).toNat + 2) := by
        simp [Int.toNat_natCast]
      simp only [h1, h2, h3, if_false, Int.toNat_natCast]
      rw [List.drop_left, List.take_left]
      simp
    | nullBulkString =>
      simp only [encodeFrame, crlf, List.append_assoc, List.cons_append, List.nil_append]
      rw [decodeFrame]
      simp [ok_bind, splitLine, parseInt, parseNat, foldDigits, isDigit]
    | array items =>
      simp only [frameOK] at hOK
      simp only [frameDepth] at hd
      simp only [encodeFrame, crlf, List.append_assoc, List.cons_append, List.nil_append]
      rw [decodeFrame]
      rw [splitLine_append _ _ (noCR_natToBytes items.length)]
      simp only [ok_bind, parseInt_natToBytes items.length]
      have h1 : ¬ ((items.length : Int) = -1) := by omega
      have h2 : ¬ ((items.length : Int) < 0) := by omega
      simp only [h1, h2, if_false, Int.toNat_natCast]
      rw [decodeItems_encodeItems pd fuel ih items rest hOK (by omega)]
      simp [ok_bind]
    | nullArray =>
      simp only [encodeFrame, crlf, List.append_assoc, List.cons_append, List.nil_append]
      rw [decodeFrame]
      simp [ok_bind, splitLine, parseInt, parseNat, foldDigits, isDigit]
    | null =>
      simp only [encodeFrame, crlf, List.append_assoc, List.cons_append, List.nil_append]
      rw [decodeFrame]
      simp [ok_bind, splitLine]
    | boolean b =>
      cases b <;>
        · simp only [encodeFrame, crlf, List.append_assoc,
            List.cons_append, List.nil_append]
          rw [decodeFrame]
          simp [ok_bind, splitLine]
    | double d =>
      simp only [frameOK, Bool.and_eq_true, beq_iff_eq] at hOK
      simp only [encodeFrame, crlf, List.append_assoc, List.cons_append, List.nil_append]
      rw [decodeFrame]
      rw [splitLine_append _ _ (noCR_of_noCRLF _ hOK.1)]
      simp [ok_bind, hOK.2]
    | map entries =>
      simp only [frameOK, Bool.and_eq_true] at hOK
      simp only [frameDepth] at hd
      simp only [encodeFrame, crlf, List.append_assoc, List.cons_append, List.nil_append]
      rw [decodeFrame]
      rw [splitLine_append _ _ (noCR_natToBytes entries.length)]
      simp only [ok_bind, parseInt_natToBytes entries.length]
      have h2 : ¬ ((entries.length : Int) < 0) := by omega
      simp only [h2, if_false, Int.toNat_natCast]
      rw [decodeEntries_encodeEntries pd fuel ih entries rest hOK.2 (by omega)]
      have hfold := foldl_mapInsert entries [] (by simp) hOK.1
      simp [ok_bind, hfold]
    | set items =>
      simp only [frameOK] at hOK
      simp only [frameDepth] at hd
      simp only [encodeFrame, crlf, List.append_assoc, List.cons_append, List.nil_append]
      rw [decodeFrame]
      rw [splitLine_append _ _ (noCR_natToBytes items.length)]
      simp only [ok_bind, parseInt_natToBytes items.length]
      have h2 : ¬ ((items.length : Int) < 0) := by omega
      simp only [h2, if_false, Int.toNat_natCast]
      rw [decodeItems_encodeItems pd fuel ih items rest hOK (by omega)]
      simp [ok_bind]

/-! ## SimpleError decoding (resp/simple_error.rs) -/

/-- Index of the CR of the first CRLF pair, scanning from the front. -/
def findCRLF : Bytes → Option Nat
  | [] => none
  | b :: rest =>
    match rest with
    | [] => none
    | c :: _ =>
      if b = 13 && c = 10 then some 0
      else (findCRLF rest).map (fun n => n + 1)

/-- Modelled from the spec: `extract_simple_frame_data` (defined in the absent
`resp/decoder.rs`): verify the expected prefix, locate the terminating CRLF and
return the index of its CR; a missing CRLF is Incomplete, a wrong prefix is
Malformed. -/
def extractSimpleFrameData (buf : Bytes) (p : Bytes) : Except DecodeOutcome Nat :=
  if buf.take p.length = p then
    match findCRLF buf with
    | some i => .ok i
    | none => .error .incomplete
  else .error .malformed

/-- `impl RespDecoder for SimpleError` (resp/simple_error.rs): locate the frame
end, split the buffer past `end + CRLF_LEN`, and build the message from
`data[1..end]` with `String::from_utf8_lossy`. Returns the message bytes and the
unconsumed remainder of the buffer. -/
def SimpleError.decode (buf : Bytes) : Except DecodeOutcome (Bytes × Bytes) :=
  match extractSimpleFrameData buf [45] with
  | .ok endIdx =>
    let data := buf.take (endIdx + 2)
    .ok (utf8Lossy ((data.drop 1).take (endIdx - 1)), buf.drop (endIdx + 2))
  | .error e => .error e

/-! ## Rust structural equality of frames

The derived `PartialEq` on `RespFrame` (resp/mod.rs) is structural and
recursive, except that the `Double` payloads compare by IEEE-754 `f64 == f64`:
false when either side is NaN, true for `+0.0 == -0.0`. -/

/-- Rust `==` on two (coherent) embedded doubles. -/
def F64.eqRust (a b : F64) : Bool :=
  !a.isNaN && !b.isNaN && (a.disp == b.disp || (a.isZero && b.isZero))

mutual

/-- The derived `PartialEq::eq` on `RespFrame`. -/
def RespFrame.eqRust : RespFrame → RespFrame → Bool
  | .simpleString a, .simpleString b => a == b
  | .error a, .error b => a == b
  | .integer a, .integer b => a == b
  | .bulkString a, .bulkString b => a == b
  | .nullBulkString, .nullBulkString => true
  | .array a, .array b => itemsEqRust a b
  | .nullArray, .nullArray => true
  | .null, .null => true
  | .boolean a, .boolean b => a == b
  | .double a, .double b => F64.eqRust a b
  | .map a, .map b => entriesEqRust a b
  | .set a, .set b => itemsEqRust a b
  | _, _ => false

/-- Element-wise `PartialEq` on frame lists (`Vec<RespFrame>`). -/
def itemsEqRust : List RespFrame → List RespFrame → Bool
  | [], [] => true
  | a :: as2, b :: bs => RespFrame.eqRust a b && itemsEqRust as2 bs
  | _, _ => false

/-- Entry-wise `PartialEq` on map entries (`BTreeMap<String, RespFrame>`). -/
def entriesEqRust : List (Bytes × RespFrame) → List (Bytes × RespFrame) → Bool
  | [], [] => true
  | (k1, v1) :: r1, (k2, v2) :: r2 => k1 == k2 && RespFrame.eqRust v1 v2 && entriesEqRust r1 r2
  | _, _ => false

end

mutual

/-- No embedded double of the frame is a NaN. -/
def noNaNFrame : RespFrame → Bool
  | .double d => !d.isNaN
  | .array items => itemsNoNaN items
  | .map entries => entriesNoNaN entries
  | .set items => itemsNoNaN items
  | _ => true

/-- `noNaNFrame` for every element. -/
def itemsNoNaN : List RespFrame → Bool
  | [] => true
  | f :: fs => noNaNFrame f && itemsNoNaN fs

/-- `noNaNFrame` for every entry value. -/
def entriesNoNaN : List (Bytes × RespFrame) → Bool
  | [] => true
  | e :: rest => noNaNFrame e.2 && entriesNoNaN rest

end

/-! ## Command layer (cmd/mod.rs, cmd/hset.rs) -/

/-- `enum CommandError` (cmd/mod.rs); messages are carried as their UTF-8 bytes.
The `RespError` variant is omitted (it only wraps decoder errors, which no
embedded code path produces). -/
inductive CommandError where
  | invalidCommand (msg : Bytes)
  | invalidArgument (msg : Bytes)
  | utf8Error
deriving DecidableEq, Repr

/-- ASCII lowercasing of one byte (`u8::to_ascii_lowercase`). -/
def toAsciiLower (b : Nat) : Nat := if 65 ≤ b && b ≤ 90 then b + 32 else b

/-- `Vec<u8>::to_ascii_lowercase`. -/
def lowerBytes (l : Bytes) : Bytes := l.map toAsciiLower

/-- `names.join(" ")`. -/
def joinSpace : List Bytes → Bytes
  | [] => []
  | [n] => n
  | n :: rest => n ++ [32] ++ joinSpace rest

/-- Rust `String::from_utf8` on a byte vector: the same bytes when they are
valid UTF-8, a `FromUtf8Error` (mapped to `CommandError::Utf8Error`) otherwise. -/
def fromUtf8 (l : Bytes) : Except CommandError Bytes :=
  if isValidUtf8 l then .ok l else .error .utf8Error

/-- The name-checking loop of `validate_command` (cmd/mod.rs): for each expected
fixed name, the element at its position must be a BulkString whose ASCII
lowercasing equals the name; a mismatch is `InvalidCommand` with the expected and
received tokens, a non-BulkString is `InvalidCommand` as well. -/
def checkNames : List RespFrame → List Bytes → Except CommandError Unit
  | _, [] => .ok ()
  | [], _ :: _ =>
    .error (.invalidCommand (str "Command must have a BulkString as the first argument"))
  | .bulkString cmd :: vs, name :: ns =>
    if lowerBytes cmd = name then checkNames vs ns
    else .error (.invalidCommand
      (str "Invalid command: expected " ++ name ++ str ", got " ++ utf8Lossy cmd))
  | _ :: _, _ :: _ =>
    .error (.invalidCommand (str "Command must have a BulkString as the first argument"))

/-- `validate_command(value, names, n_args)` (cmd/mod.rs lines 173-205): when the
element count is not `n_args + names.len()`, an `InvalidArgument` error carrying
the expected argument count; otherwise the positional fixed-name check. -/
def validateCommand (value : List RespFrame) (names : List Bytes) (nArgs : Nat) :
    Except CommandError Unit :=
  if value.length = nArgs + names.length then checkNames value names
  else .error (.invalidArgument
    (joinSpace names ++ str " command must have exactly " ++ natToBytes nArgs
      ++ str " argument"))

/-- `extract_args(value, start)` (cmd/mod.rs): the elements from `start` on. -/
def extractArgs (value : List RespFrame) (start : Nat) : List RespFrame :=
  value.drop start

/-! ### Backend (spec-modelled) and the set commands -/

/-- Modelled from the spec: the backend's set table (`backend.rs` is absent from
the sources): "set (mapping member string → presence, i.e., set semantics with
O(1) membership test)". An association list from key to the members in first
insertion order. -/
abbrev Backend : Type := List (Bytes × List Bytes)

/-- The set stored at `key`, when present. -/
def lookupSet : Backend → Bytes → Option (List Bytes)
  | [], _ => none
  | (k, s) :: rest, key => if k = key then some s else lookupSet rest key

/-- Store `s` as the set of `key` (replacing or appending the entry). -/
def setEntry : Backend → Bytes → List Bytes → Backend
  | [], key, s => [(key, s)]
  | (k, s0) :: rest, key, s =>
    if k = key then (key, s) :: rest else (k, s0) :: setEntry rest key s

/-- Modelled from the spec: `backend.sadd(key, member)` — insert the member into
the key's set, creating the set if the key is absent, and report whether the
member was newly inserted. -/
def sadd (b : Backend) (key member : Bytes) : Bool × Backend :=
  match lookupSet b key with
  | none => (true, setEntry b key [member])
  | some s =>
    if member ∈ s then (false, b) else (true, setEntry b key (s ++ [member]))

/-- Modelled from the spec: `backend.sismember(key, member)` — membership test;
an absent key behaves as an empty set. -/
def sismember (b : Backend) (key member : Bytes) : Bool :=
  match lookupSet b key with
  | none => false
  | some s => decide (member ∈ s)

/-- `struct SAdd` (cmd/mod.rs). -/
structure SAdd where
  key : Bytes
  members : List Bytes
deriving DecidableEq, Repr

/-- `struct SIsMember` (cmd/mod.rs). -/
structure SIsMember where
  key : Bytes
  member : Bytes
deriving DecidableEq, Repr

/-- The members mapped through `backend.sadd` in order, threading the backend. -/
def saddAll (b : Backend) (key : Bytes) : List Bytes → List Bool × Backend
  | [] => ([], b)
  | m :: ms =>
    let r := sadd b key m
    let rs := saddAll r.2 key ms
    (r.1 :: rs.1, rs.2)

/-- `impl CommandExecutor for SAdd` (cmd/hset.rs): each member is passed to
`backend.sadd` in input order and each boolean reply is collected as an Integer
frame (`b as i64`), wrapped in an Array. -/
def SAdd.execute (c : SAdd) (backend : Backend) : RespFrame × Backend :=
  let r := saddAll backend c.key c.members
  (.array (r.1.map (fun fl => .integer (if fl then 1 else 0))), r.2)

/-- `impl CommandExecutor for SIsMember` (cmd/hset.rs):
`backend.sismember(key, member) as i64` as an Integer frame. -/
def SIsMember.execute (c : SIsMember) (backend : Backend) : RespFrame × Backend :=
  (.integer (if sismember backend c.key c.member then 1 else 0), backend)

/-- The member-collection loop of `impl TryFrom<RespArray> for SAdd`: each
remaining element must be a BulkString holding valid UTF-8. -/
def collectMembers : List RespFrame → Except CommandError (List Bytes)
  | [] => .ok []
  | .bulkString m :: rest => do
    let m2 ← fromUtf8 m
    let ms ← collectMembers rest
    .ok (m2 :: ms)
  | _ :: _ => .error (.invalidArgument (str "Invalid key"))

/-- `impl TryFrom<RespArray> for SAdd` (cmd/hset.rs lines 22-56): an empty array
is rejected, one or two elements raise `InvalidCommand` with the received count,
otherwise `validate_command(["sadd"], len - 1)` runs and the key plus members are
extracted as UTF-8 BulkStrings. -/
def SAdd.tryFrom (value : List RespFrame) : Except CommandError SAdd :=
  let len := value.length
  if len = 0 then
    .error (.invalidCommand (str "sadd command does not accept null array"))
  else if len ≤ 2 then
    .error (.invalidCommand
      (str "sadd command needs at least 2 argument, got " ++ natToBytes len))
  else do
    let _ ← validateCommand value [str "sadd"] (len - 1)
    match extractArgs value 1 with
    | .bulkString key :: rest => do
      let k ← fromUtf8 key
      let members ← collectMembers rest
      .ok ⟨k, members⟩
    | _ => .error (.invalidArgument (str "Invalid key"))

/-- `impl TryFrom<RespArray> for SIsMember` (cmd/hset.rs lines 58-77):
`validate_command(["sismember"], 2)` then key and member as UTF-8 BulkStrings. -/
def SIsMember.tryFrom (value : List RespFrame) : Except CommandError SIsMember := do
  let _ ← validateCommand value [str "sismember"] 2
  match extractArgs value 1 with
  | .bulkString key :: .bulkString member :: _ => do
    let k ← fromUtf8 key
    let m ← fromUtf8 member
    .ok ⟨k, m⟩
  | _ => .error (.invalidArgument (str "Invalid key or value"))

/-! ### The remaining command parsers

Their files (`cmd/map.rs`, `cmd/hmap.rs`) are absent from the sources; they are
modelled from the spec (§4.3: shared `validate_command` arity check, then each
key/field argument decoded as a UTF-8 BulkString). None of the verified claims
depends on their internals — the dispatcher only needs them to exist. -/

/-- `struct Get` (cmd/mod.rs). -/
structure Get where
  key : Bytes
deriving DecidableEq, Repr

/-- `struct Set` (cmd/mod.rs); named `SetCmd` because `Set` is taken in Lean. -/
structure SetCmd where
  key : Bytes
  value : RespFrame

/-- `struct Echo` (cmd/mod.rs). -/
structure Echo where
  message : Bytes
deriving DecidableEq, Repr

/-- `struct HGet` (cmd/mod.rs). -/
structure HGet where
  key : Bytes
  field2 : Bytes
deriving DecidableEq, Repr

/-- `struct HSet` (cmd/mod.rs); named `HSetCmd` to avoid clashing with Mathlib. -/
structure HSetCmd where
  key : Bytes
  field2 : Bytes
  value : RespFrame

/-- `struct HGetAll` (cmd/mod.rs). -/
structure HGetAll where
  key : Bytes
  sort : Bool
deriving DecidableEq, Repr

/-- `struct HMGet` (cmd/mod.rs). -/
structure HMGet where
  hash : Bytes
  fields : List Bytes
deriving DecidableEq, Repr

/-- Modelled from the spec: the GET parser (`cmd/map.rs` absent). -/
def Get.tryFrom (value : List RespFrame) : Except CommandError Get := do
  let _ ← validateCommand value [str "get"] 1
  match extractArgs value 1 with
  | .bulkString key :: _ => do
    let k ← fromUtf8 key
    .ok ⟨k⟩
  | _ => .error (.invalidArgument (str "Invalid key"))

/-- Modelled from the spec: the SET parser (`cmd/map.rs` absent). -/
def SetCmd.tryFrom (value : List RespFrame) : Except CommandError SetCmd := do
  let _ ← validateCommand value [str "set"] 2
  match extractArgs value 1 with
  | .bulkString key :: v :: _ => do
    let k ← fromUtf8 key
    .ok ⟨k, v⟩
  | _ => .error (.invalidArgument (str "Invalid key"))

/-- Modelled from the spec: the ECHO parser (`cmd/map.rs` absent). -/
def Echo.tryFrom (value : List RespFrame) : Except CommandError Echo := do
  let _ ← validateCommand value [str "echo"] 1
  match extractArgs value 1 with
  | .bulkString m :: _ => do
    let m2 ← fromUtf8 m
    .ok ⟨m2⟩
  | _ => .error (.invalidArgument (str "Invalid message"))

/-- Modelled from the spec: the HGET parser (`cmd/hmap.rs` absent). -/
def HGet.tryFrom (value : List RespFrame) : Except CommandError HGet := do
  let _ ← validateCommand value [str "hget"] 2
  match extractArgs value 1 with
  | .bulkString key :: .bulkString fld :: _ => do
    let k ← fromUtf8 key
    let f ← fromUtf8 fld
    .ok ⟨k, f⟩
  | _ => .error (.invalidArgument (str "Invalid key or field"))

/-- Modelled from the spec: the HSET parser (`cmd/hmap.rs` absent). -/
def HSetCmd.tryFrom (value : List RespFrame) : Except CommandError HSetCmd := do
  let _ ← validateCommand value [str "hset"] 3
  match extractArgs value 1 with
  | .bulkString key :: .bulkString fld :: v :: _ => do
    let k ← fromUtf8 key
    let f ← fromUtf8 fld
    .ok ⟨k, f, v⟩
  | _ => .error (.invalidArgument (str "Invalid key or field"))

/-- Modelled from the spec: the HGETALL parser (`cmd/hmap.rs` absent); the `sort`
flag defaults to false. -/
def HGetAll.tryFrom (value : List RespFrame) : Except CommandError HGetAll := do
  let _ ← validateCommand value [str "hgetall"] 1
  match extractArgs value 1 with
  | .bulkString key :: _ => do
    let k ← fromUtf8 key
    .ok ⟨k, false⟩
  | _ => .error (.invalidArgument (str "Invalid key"))

/-- Modelled from the spec: the HMGET parser (`cmd/hmap.rs` absent); variadic
like SADD. -/
def HMGet.tryFrom (value : List RespFrame) : Except CommandError HMGet :=
  let len := value.length
  if len ≤ 2 then
    .error (.invalidCommand
      (str "hmget command needs at least 2 argument, got " ++ natToBytes len))
  else do
    let _ ← validateCommand value [str "hmget"] (len - 1)
    match extractArgs value 1 with
    | .bulkString key :: rest => do
      let k ← fromUtf8 key
      let fields ← collectMembers rest
      .ok ⟨k, fields⟩
    | _ => .error (.invalidArgument (str "Invalid key"))

/-- `enum Command` (cmd/mod.rs). -/
inductive Command where
  | get (c : Get)
  | set (c : SetCmd)
  | echo (c : Echo)
  | hget (c : HGet)
  | hset (c : HSetCmd)
  | hgetall (c : HGetAll)
  | hmget (c : HMGet)
  | sadd (c : SAdd)
  | sismember (c : SIsMember)
  | unrecognized

/-- `impl TryFrom<RespArray> for Command` (cmd/mod.rs lines 148-171): the first
element must be a BulkString; its ASCII lowercasing is matched against the known
command names in source order, and any unmatched name parses as `Unrecognized`. -/
def Command.tryFromArray (v : List RespFrame) : Except CommandError Command :=
  match v.head? with
  | some (.bulkString cmd) =>
    let lc := lowerBytes cmd
    if lc = str "get" then (Get.tryFrom v).map .get
    else if lc = str "set" then (SetCmd.tryFrom v).map .set
    else if lc = str "echo" then (Echo.tryFrom v).map .echo
    else if lc = str "hget" then (HGet.tryFrom v).map .hget
    else if lc = str "hset" then (HSetCmd.tryFrom v).map .hset
    else if lc = str "hmget" then (HMGet.tryFrom v).map .hmget
    else if lc = str "hgetall" then (HGetAll.tryFrom v).map .hgetall
    else if lc = str "sadd" then (SAdd.tryFrom v).map .sadd
    else if lc = str "sismember" then (SIsMember.tryFrom v).map .sismember
    else .ok .unrecognized
  | _ =>
    .error (.invalidCommand (str "Command must have a BulkString as the first argument"))

/-- `impl TryFrom<RespFrame> for Command` (cmd/mod.rs lines 130-140): only Array
frames are commands. -/
def Command.tryFromFrame : RespFrame → Except CommandError Command
  | .array a => Command.tryFromArray a
  | _ => .error (.invalidCommand (str "Command must be an Array"))

/-- `impl CommandExecutor for Unrecognized` (cmd/mod.rs lines 142-146): replies
the cached `RESP_OK` frame (`SimpleString::new("OK")`) and does not touch the
backend. -/
def Unrecognized.execute (backend : Backend) : RespFrame × Backend :=
  (.simpleString (str "OK"), backend)

/-! ## The claims -/

/-- C1: for every frame `f` of any of the 12 variants whose SimpleString/Error
payloads (including map keys, which are encoded as SimpleStrings) contain no
CR/LF — together with the `RespFrame` type invariants: payload strings are valid
UTF-8, map entries are sorted by key as in a `BTreeMap` — and any double parser
`pd` that parses the canonical text of each embedded double back to it (Rust's
float round-trip guarantee, `frameOK pd f`), decoding the encoding of `f` yields
exactly `f` and consumes the whole buffer. -/
theorem c1_decode_encode_roundtrip (pd : Bytes → Option F64) (f : RespFrame)
    (h : frameOK pd f = true) :
    decodeFrame pd (frameDepth f) (encodeFrame f) = .ok (f, []) := by
  have h2 := decodeFrame_encodeFrame pd (frameDepth f) f [] h le_rfl
  simpa using h2

/-- A concrete double parser for witnesses: the canonical texts of the sample
doubles map back to them. -/
def pdSample : Bytes → Option F64 := fun l =>
  if l = str "123.456" then some f64OneTwoThree
  else if l = str "+1.23456e8" then some f64Sci8
  else if l = str "-1.23456e-9" then some f64NegTiny
  else if l = str "NaN" then some f64NaN
  else none

/-- A sample frame touching all 12 variants. -/
def frameSample : RespFrame :=
  .array [.simpleString (str "OK"), .error (str "oops"), .integer (-5),
    .bulkString [0, 255, 10], .nullBulkString, .nullArray, .null, .boolean true,
    .double f64OneTwoThree,
    .map [(str "foo", .double f64Sci8), (str "hello", .bulkString (str "world"))],
    .set [.boolean false, .integer 7]]

theorem c1_witness :
    frameOK pdSample frameSample = true ∧
    decodeFrame pdSample (frameDepth frameSample) (encodeFrame frameSample) =
      .ok (frameSample, []) := by
  have hOK : frameOK pdSample frameSample = true := by
    simp only [frameSample, frameOK, itemsOK, entriesOK, simpleTextOK, keysSorted,
      Bool.and_eq_true]
    and_intros <;> decide
  exact ⟨hOK, c1_decode_encode_roundtrip pdSample frameSample hOK⟩

/-- The plain-decimal condition claimed by the spec for C2, written from the
spec's words ("plain decimal notation when `1e-8 ≤ |d| < 1e8` (or d==0)"),
expressed through the embedded comparisons: `1e-8 ≤ |d|` is the negation of
`|d| < 1e-8` and `|d| < 1e8` is the negation of `|d| > 1e8 ∨ |d| = 1e8`. -/
def specDoublePlainCond (d : F64) : Bool :=
  (!d.absLt1em8 && !d.absGt1e8 && !d.absEq1e8) || d.isZero

/-- C2 counterexample: the claim classifies `d == 0` as plain decimal, but the
encoder's branch `self.abs() > 1e+8 || self.abs() < 1e-8` is true at `0.0`
(`|0| < 1e-8`), so `0.0` encodes scientifically as `,+0e0\x0d\x0a`, not as the
plain `,0\x0d\x0a`; and at `|d| = 1e8` exactly the claim demands scientific
notation (its plain range is `|d| < 1e8`) while the encoder's strict `>` keeps
it plain, `,100000000\x0d\x0a`. -/
theorem c2_counterexample :
    (specDoublePlainCond f64Zero = true ∧
      encodeFrame (.double f64Zero) = str ",+0e0" ++ crlf ∧
      encodeFrame (.double f64Zero) ≠ [44] ++ f64Zero.disp ++ crlf) ∧
    (specDoublePlainCond f64OneE8 = false ∧
      encodeFrame (.double f64OneE8) = str ",100000000" ++ crlf ∧
      encodeFrame (.double f64OneE8) = [44] ++ f64OneE8.disp ++ crlf ∧
      encodeFrame (.double f64OneE8) ≠ [44] ++ f64OneE8.expDisp ++ crlf) := by
  refine ⟨⟨by decide, ?_, ?_⟩, by decide, ?_, ?_, ?_⟩
  · simp [encodeFrame, F64.text, f64Zero, str, crlf]
  · simp [encodeFrame, F64.text, f64Zero, str, crlf]
  · simp [encodeFrame, F64.text, f64OneE8, str, crlf]
  · simp [encodeFrame, F64.text, f64OneE8, str, crlf]
  · simp [encodeFrame, F64.text, f64OneE8, str, crlf]

/-- C2 amended: `encode(Double d)` produces `,` ++ text ++ CRLF where the text is
the signed `{:+e}` scientific rendering exactly when `|d| > 1e8` or `|d| < 1e-8`
(so `d == 0` is scientific, `+0e0`, and `|d| == 1e8` stays plain), and the plain
`{}` rendering otherwise; in scientific notation the mantissa always carries a
sign while the exponent is signed only when negative. The claim's three concrete
examples hold. -/
theorem c2_amended :
    (∀ d : F64, encodeFrame (.double d) =
      [44] ++ (if d.absGt1e8 || d.absLt1em8 then d.expDisp else d.disp) ++ crlf) ∧
    encodeFrame (.double f64OneTwoThree) = str ",123.456" ++ crlf ∧
    encodeFrame (.double f64Sci8) = str ",+1.23456e8" ++ crlf ∧
    encodeFrame (.double f64NegTiny) = str ",-1.23456e-9" ++ crlf ∧
    encodeFrame (.double f64Zero) = str ",+0e0" ++ crlf ∧
    encodeFrame (.double f64OneE8) = str ",100000000" ++ crlf := by
  refine ⟨fun d => ?_, ?_, ?_, ?_, ?_, ?_⟩
  · simp [encodeFrame, F64.text]
  all_goals simp [encodeFrame, F64.text, f64OneTwoThree, f64Sci8, f64NegTiny,
    f64Zero, f64OneE8, str, crlf]

/-- C3 counterexample: in `validate_command`, a wrong element count produces
`InvalidArgument` (not `InvalidCommand`, and the message carries only the
expected count), while a mismatching fixed-name token produces `InvalidCommand`
(not `InvalidArgument`) — the two error variants are exactly swapped relative to
the claim. -/
theorem c3_counterexample :
    validateCommand [.bulkString (str "SISMEMBER"), .bulkString (str "a")]
        [str "sismember"] 2 =
      .error (.invalidArgument
        (str "sismember command must have exactly " ++ natToBytes 2 ++ str " argument")) ∧
    validateCommand [.bulkString (str "FOO"), .bulkString (str "a"), .bulkString (str "b")]
        [str "sismember"] 2 =
      .error (.invalidCommand
        (str "Invalid command: expected sismember, got FOO")) := by
  constructor
  · rfl
  · simp [validateCommand, checkNames, lowerBytes, toAsciiLower, str, utf8Lossy,
      utf8LossyGo, utf8Front, joinSpace]

/-- C3 amended: when the element count differs from `n_args + names.len()` the
shared arity check returns `InvalidArgument` carrying the expected count; when
the count matches, each required fixed-name token is compared case-insensitively
at its position and a mismatch returns `InvalidCommand` naming the expected and
the received token. -/
theorem c3_amended :
    (∀ (value : List RespFrame) (names : List Bytes) (nArgs : Nat),
      value.length ≠ nArgs + names.length →
      validateCommand value names nArgs =
        .error (.invalidArgument (joinSpace names ++ str " command must have exactly "
          ++ natToBytes nArgs ++ str " argument"))) ∧
    (∀ (value : List RespFrame) (names : List Bytes) (nArgs : Nat),
      value.length = nArgs + names.length →
      validateCommand value names nArgs = checkNames value names) ∧
    (∀ (vs : List RespFrame) (cmd name : Bytes) (ns : List Bytes),
      lowerBytes cmd ≠ name →
      checkNames (.bulkString cmd :: vs) (name :: ns) =
        .error (.invalidCommand (str "Invalid command: expected " ++ name
          ++ str ", got " ++ utf8Lossy cmd))) := by
  refine ⟨fun value names nArgs h => ?_, fun value names nArgs h => ?_,
    fun vs cmd name ns h => ?_⟩
  · rw [validateCommand, if_neg h]
  · rw [validateCommand, if_pos h]
  · rw [checkNames, if_neg h]

theorem c3_witness :
    validateCommand [.bulkString (str "sismember"), .bulkString (str "a")]
        [str "sismember"] 2 =
      .error (.invalidArgument (joinSpace [str "sismember"]
        ++ str " command must have exactly " ++ natToBytes 2 ++ str " argument")) ∧
    validateCommand [.bulkString (str "FOO"), .bulkString (str "a"), .bulkString (str "b")]
        [str "sismember"] 2 =
      checkNames [.bulkString (str "FOO"), .bulkString (str "a"), .bulkString (str "b")]
        [str "sismember"] ∧
    checkNames [.bulkString (str "FOO")] [str "sismember"] =
      .error (.invalidCommand (str "Invalid command: expected sismember, got "
        ++ utf8Lossy (str "FOO"))) :=
  ⟨c3_amended.1 _ _ 2 (by decide), c3_amended.2.1 _ _ 2 (by decide),
    c3_amended.2.2 [] (str "FOO") (str "sismember") [] (by decide)⟩

/-- C5: parsing `SADD myset` (command name plus key only) is InvalidCommand with
a descriptive count (`got 2`), and parsing `SADD myset Hello World` succeeds
with key `myset` and members `[Hello, World]` in order. -/
theorem c5_sadd_parse :
    SAdd.tryFrom [.bulkString (str "SADD"), .bulkString (str "myset")] =
      .error (.invalidCommand
        (str "sadd command needs at least 2 argument, got " ++ natToBytes 2)) ∧
    natToBytes 2 = str "2" ∧
    SAdd.tryFrom [.bulkString (str "SADD"), .bulkString (str "myset"),
        .bulkString (str "Hello"), .bulkString (str "World")] =
      .ok ⟨str "myset", [str "Hello", str "World"]⟩ := by
  refine ⟨rfl, ?_, rfl⟩
  simp [natToBytes, str]

/-! ### C4/C7 helper lemmas about the backend sets -/

/-- The members currently stored at `key` (empty when the key is absent). -/
def currentMembers (b : Backend) (key : Bytes) : List Bytes :=
  (lookupSet b key).getD []

theorem lookupSet_setEntry : ∀ (b : Backend) (key : Bytes) (s : List Bytes),
    lookupSet (setEntry b key s) key = some s := by
  intro b key s
  induction b with
  | nil => simp [setEntry, lookupSet]
  | cons e rest ih =>
    obtain ⟨k, s0⟩ := e
    by_cases h : k = key
    · subst h
      simp [setEntry, lookupSet]
    · simp [setEntry, lookupSet, h, ih]

theorem sadd_flag (b : Backend) (key m : Bytes) :
    (sadd b key m).1 = !decide (m ∈ currentMembers b key) := by
  unfold sadd currentMembers
  cases h : lookupSet b key with
  | none => simp
  | some s => by_cases hm : m ∈ s <;> simp [hm]

theorem mem_sadd (b : Backend) (key m x : Bytes) :
    x ∈ currentMembers (sadd b key m).2 key ↔ x ∈ currentMembers b key ∨ x = m := by
  unfold sadd currentMembers
  cases h : lookupSet b key with
  | none => simp [lookupSet_setEntry]
  | some s =>
    by_cases hm : m ∈ s
    · simp only [hm, if_true, h, Option.getD_some]
      constructor
      · exact Or.inl
      · rintro (h1 | rfl)
        · exact h1
        · exact hm
    · simp [hm, lookupSet_setEntry, h]

theorem saddAll_spec : ∀ (members : List Bytes) (b : Backend) (key : Bytes),
    (saddAll b key members).1 =
      (List.range members.length).map (fun i =>
        !decide (members[i]! ∈ currentMembers b key ∨ members[i]! ∈ members.take i)) := by
  intro members
  induction members with
  | nil => intro b key; simp [saddAll]
  | cons m ms ih =>
    intro b key
    simp only [saddAll]
    rw [sadd_flag, ih]
    rw [List.length_cons, List.range_succ_eq_map, List.map_cons, List.map_map]
    congr 1
    · simp
    · apply List.map_congr_left
      intro i hi
      simp only [Function.comp_apply]
      have h1 : (m :: ms)[i + 1]! = ms[i]! := by
        simp [List.getElem!_cons_succ]
      rw [h1]
      congr 1
      rw [decide_eq_decide]
      rw [mem_sadd, List.take_succ_cons]
      simp only [List.mem_cons]
      tauto

/-- C4: executing `SAdd{key, members}` replies an Array of per-member Integer
frames in input order, 1 exactly when the member is neither already in the key's
set (which is created when absent) nor a duplicate of an earlier member of the
same call, else 0; and across two executions, adding a fresh key/member yields 1
the first time and 0 the second. -/
theorem c4_sadd_execute :
    (∀ (key : Bytes) (members : List Bytes) (backend : Backend),
      (SAdd.execute ⟨key, members⟩ backend).1 =
        .array ((List.range members.length).map (fun i =>
          .integer (if members[i]! ∈ currentMembers backend key
                      ∨ members[i]! ∈ members.take i then 0 else 1)))) ∧
    (∀ (key m : Bytes) (backend : Backend), m ∉ currentMembers backend key →
      (SAdd.execute ⟨key, [m]⟩ backend).1 = .array [.integer 1] ∧
      (SAdd.execute ⟨key, [m]⟩ (SAdd.execute ⟨key, [m]⟩ backend).2).1 =
        .array [.integer 0]) := by
  constructor
  · intro key members backend
    simp only [SAdd.execute]
    rw [saddAll_spec, List.map_map]
    congr 1
    apply List.map_congr_left
    intro i hi
    simp only [Function.comp_apply]
    by_cases hP : members[i]! ∈ currentMembers backend key ∨ members[i]! ∈ members.take i
    · simp [hP]
    · simp [hP]
  · intro key m backend h
    have hmem : m ∈ currentMembers (sadd backend key m).2 key :=
      (mem_sadd backend key m m).mpr (Or.inr rfl)
    constructor
    · simp [SAdd.execute, saddAll, sadd_flag, h]
    · simp [SAdd.execute, saddAll, sadd_flag, hmem]

theorem c4_witness :
    (SAdd.execute ⟨str "k", [str "m"]⟩ ([] : Backend)).1 = .array [.integer 1] ∧
    (SAdd.execute ⟨str "k", [str "m"]⟩
        (SAdd.execute ⟨str "k", [str "m"]⟩ ([] : Backend)).2).1 = .array [.integer 0] :=
  c4_sadd_execute.2 (str "k") (str "m") [] (by decide)

theorem bytesLt_total : ∀ a b : Bytes, ¬ a = b →
    bytesLt a b = true ∨ bytesLt b a = true := by
  intro a
  induction a with
  | nil =>
    intro b hne
    cases b with
    | nil => exact absurd rfl hne
    | cons y ys => exact Or.inl rfl
  | cons x xs ih =>
    intro b hne
    cases b with
    | nil => exact Or.inr rfl
    | cons y ys =>
      rcases Nat.lt_trichotomy x y with h | h | h
      · left
        simp [bytesLt, h]
      · subst h
        have hne2 : ¬ xs = ys := fun he => hne (by rw [he])
        rcases ih ys hne2 with h2 | h2
        · left
          simp [bytesLt, h2]
        · right
          simp [bytesLt, h2]
      · right
        simp [bytesLt, h]

theorem keysSorted_cons_of : ∀ (k : Bytes) (v : RespFrame) (rest : List (Bytes × RespFrame)),
    keysSorted rest = true → (∀ e ∈ rest, bytesLt k e.1 = true) →
    keysSorted ((k, v) :: rest) = true := by
  intro k v rest h1 h2
  cases rest with
  | nil => rfl
  | cons e2 t =>
    obtain ⟨k2, v2⟩ := e2
    rw [keysSorted]
    rw [h1, h2 (k2, v2) (List.mem_cons_self _ _)]
    rfl

theorem keys_mapInsert : ∀ (l : List (Bytes × RespFrame)) (k : Bytes) (v : RespFrame)
    (x : Bytes × RespFrame), x ∈ mapInsert k v l → x.1 = k ∨ x.1 ∈ l.map Prod.fst := by
  intro l
  induction l with
  | nil =>
    intro k v x hx
    simp only [mapInsert, List.mem_singleton] at hx
    subst hx
    exact Or.inl rfl
  | cons e t ih =>
    intro k v x hx
    obtain ⟨k2, v2⟩ := e
    by_cases h1 : bytesLt k k2 = true
    · simp only [mapInsert, if_pos h1] at hx
      rcases List.mem_cons.mp hx with rfl | hx2
      · exact Or.inl rfl
      · exact Or.inr (List.mem_map_of_mem Prod.fst hx2)
    · by_cases h2 : k = k2
      · simp only [mapInsert, if_neg h1, if_pos h2] at hx
        rcases List.mem_cons.mp hx with rfl | hx2
        · exact Or.inl rfl
        · exact Or.inr (List.mem_map_of_mem Prod.fst (List.mem_cons_of_mem _ hx2))
      · simp only [mapInsert, if_neg h1, if_neg h2] at hx
        rcases List.mem_cons.mp hx with rfl | hx2
        · exact Or.inr (List.mem_map_of_mem Prod.fst (List.mem_cons_self _ _))
        · rcases ih k v x hx2 with h3 | h3
          · exact Or.inl h3
          · exact Or.inr (by simp only [List.map_cons, List.mem_cons]; exact Or.inr h3)

theorem keysSorted_insert : ∀ (l : List (Bytes × RespFrame)) (k : Bytes) (v : RespFrame),
    keysSorted l = true → keysSorted (mapInsert k v l) = true := by
  intro l
  induction l with
  | nil => intro k v _; rfl
  | cons e t ih =>
    intro k v hl
    obtain ⟨k2, v2⟩ := e
    obtain ⟨ht, hall⟩ := keysSorted_cons k2 v2 t hl
    by_cases h1 : bytesLt k k2 = true
    · simp only [mapInsert, if_pos h1]
      apply keysSorted_cons_of
      · exact hl
      · intro e he
        rcases List.mem_cons.mp he with rfl | he2
        · exact h1
        · exact bytesLt_trans _ _ _ h1 (hall e he2)
    · by_cases h2 : k = k2
      · subst h2
        simp only [mapInsert, if_neg h1, if_pos rfl]
        exact keysSorted_cons_of k v t ht hall
      · simp only [mapInsert, if_neg h1, if_neg h2]
        have hk2k : bytesLt k2 k = true := by
          rcases bytesLt_total k k2 h2 with h | h
          · exact absurd h h1
          · exact h
        apply keysSorted_cons_of
        · exact ih k v ht
        · intro e he
          rcases keys_mapInsert t k v e he with h3 | h3
          · rw [h3]
            exact hk2k
          · obtain ⟨e2, he2, heq⟩ := List.mem_map.mp h3
            rw [← heq]
            exact hall e2 he2

theorem keysSorted_pairwise : ∀ l : List (Bytes × RespFrame), keysSorted l = true →
    (l.map Prod.fst).Pairwise (fun a b => bytesLt a b = true) := by
  intro l
  induction l with
  | nil => intro _; simp
  | cons e t ih =>
    intro hl
    obtain ⟨k, v⟩ := e
    obtain ⟨ht, hall⟩ := keysSorted_cons k v t hl
    simp only [List.map_cons]
    rw [List.pairwise_cons]
    constructor
    · intro b hb
      obtain ⟨e2, he2, heq⟩ := List.mem_map.mp hb
      rw [← heq]
      exact hall e2 he2
    · exact ih ht

theorem encodeEntries_join : ∀ entries : List (Bytes × RespFrame),
    encodeEntries entries =
      (entries.map (fun e => ([43] ++ e.1 ++ crlf) ++ encodeFrame e.2)).flatten := by
  intro entries
  induction entries with
  | nil => rw [encodeEntries]; rfl
  | cons e t ih =>
    obtain ⟨k, v⟩ := e
    rw [encodeEntries, ih]
    simp

/-- C6: for every Map frame — its entries sorted strictly by key, the invariant
of the `BTreeMap` behind `RespMap`, which `BTreeMap::insert` (`mapInsert`)
preserves — encode produces `%` followed by the entry count and CRLF, then each
entry in ascending key order as the key encoded as a SimpleString immediately
followed by the value's encoding; in particular the claim's concrete map encodes
to exactly the claimed bytes. -/
theorem c6_map_encode :
    (∀ entries : List (Bytes × RespFrame), keysSorted entries = true →
      encodeFrame (.map entries) =
        [37] ++ natToBytes entries.length ++ crlf
          ++ (entries.map (fun e => ([43] ++ e.1 ++ crlf) ++ encodeFrame e.2)).flatten ∧
      (entries.map Prod.fst).Pairwise (fun a b => bytesLt a b = true)) ∧
    (∀ (entries : List (Bytes × RespFrame)) (k : Bytes) (v : RespFrame),
      keysSorted entries = true → keysSorted (mapInsert k v entries) = true) ∧
    encodeFrame (.map (mapInsert (str "foo") (.double f64NegBig)
        (mapInsert (str "hello") (.bulkString (str "world")) []))) =
      str "%2" ++ crlf ++ str "+foo" ++ crlf ++ str ",-123456.789" ++ crlf
        ++ str "+hello" ++ crlf ++ str "$5" ++ crlf ++ str "world" ++ crlf := by
  refine ⟨fun entries hs => ⟨?_, keysSorted_pairwise entries hs⟩,
    fun entries k v hs => keysSorted_insert entries k v hs, ?_⟩
  · rw [encodeFrame, encodeEntries_join]
  · have hins : mapInsert (str "foo") (.double f64NegBig)
        (mapInsert (str "hello") (.bulkString (str "world")) []) =
        [(str "foo", .double f64NegBig), (str "hello", .bulkString (str "world"))] := by
      rfl
    rw [hins]
    simp [encodeFrame, encodeEntries, natToBytes, F64.text, f64NegBig, str, crlf]

theorem c6_witness :
    (encodeFrame (.map [(str "a", .integer 1), (str "b", .null)]) =
        [37] ++ natToBytes 2 ++ crlf
          ++ ([(str "a", RespFrame.integer 1), (str "b", RespFrame.null)].map
              (fun e => ([43] ++ e.1 ++ crlf) ++ encodeFrame e.2)).flatten ∧
      ([(str "a", RespFrame.integer 1), (str "b", RespFrame.null)].map Prod.fst).Pairwise
        (fun a b => bytesLt a b = true)) ∧
    keysSorted (mapInsert (str "c") .null
      [(str "a", .integer 1), (str "b", .null)]) = true :=
  ⟨c6_map_encode.1 [(str "a", .integer 1), (str "b", .null)] (by decide),
   c6_map_encode.2.1 [(str "a", .integer 1), (str "b", .null)] (str "c") .null (by decide)⟩

/-- C7: `SIsMember{key, member}` replies Integer 1 exactly when the member is in
the key's set and 0 otherwise, leaving the backend unchanged; a key without an
entry (the state of every key on which no SADD was ever executed — entries are
only ever created by `sadd`) always yields Integer 0. -/
theorem sismember_spec : ∀ (b : Backend) (key m : Bytes),
    sismember b key m = decide (m ∈ currentMembers b key) := by
  intro b key m
  unfold sismember currentMembers
  induction b with
  | nil => rfl
  | cons e rest ih =>
    obtain ⟨k, s⟩ := e
    by_cases h : k = key
    · subst h
      simp [lookupSet]
    · simp only [lookupSet, h, if_false]
      exact ih

theorem c7_sismember :
    (∀ (key member : Bytes) (backend : Backend),
      SIsMember.execute ⟨key, member⟩ backend =
        (.integer (if member ∈ currentMembers backend key then 1 else 0), backend)) ∧
    (∀ (key member : Bytes) (backend : Backend), lookupSet backend key = none →
      SIsMember.execute ⟨key, member⟩ backend = (.integer 0, backend)) := by
  constructor
  · intro key member backend
    simp only [SIsMember.execute, sismember_spec]
    simp
  · intro key member backend h
    simp [SIsMember.execute, sismember_spec, currentMembers, h]

theorem c7_witness :
    SIsMember.execute ⟨str "never", str "one"⟩ ([] : Backend) = (.integer 0, []) ∧
    SIsMember.execute ⟨str "s", str "one"⟩ ([(str "s", [str "one"])] : Backend) =
      (.integer (if (str "one") ∈ currentMembers [(str "s", [str "one"])] (str "s")
        then 1 else 0), [(str "s", [str "one"])]) :=
  ⟨c7_sismember.2 (str "never") (str "one") [] (by decide),
   c7_sismember.1 (str "s") (str "one") [(str "s", [str "one"])]⟩

/-- C8: an array whose first element is a BulkString matching none of the nine
known command names (after ASCII lowercasing) parses successfully to the
`Unrecognized` command, and executing `Unrecognized` replies the fixed
SimpleString `OK` and returns the backend unchanged. -/
theorem c8_unrecognized :
    (∀ (cmd : Bytes) (rest : List RespFrame),
      lowerBytes cmd ∉ [str "get", str "set", str "echo", str "hget", str "hset",
        str "hmget", str "hgetall", str "sadd", str "sismember"] →
      Command.tryFromArray (.bulkString cmd :: rest) = .ok .unrecognized) ∧
    (∀ backend : Backend,
      Unrecognized.execute backend = (.simpleString (str "OK"), backend)) := by
  constructor
  · intro cmd rest h
    simp only [List.mem_cons, List.mem_singleton, not_or] at h
    obtain ⟨h1, h2, h3, h4, h5, h6, h7, h8, h9, -⟩ := h
    simp [Command.tryFromArray, h1, h2, h3, h4, h5, h6, h7, h8, h9]
  · intro backend
    rfl

theorem c8_witness :
    Command.tryFromArray (.bulkString (str "FOOBAR") :: [.bulkString (str "x")]) =
      .ok .unrecognized ∧
    Unrecognized.execute ([(str "k", [str "m"])] : Backend) =
      (.simpleString (str "OK"), [(str "k", [str "m"])]) :=
  ⟨c8_unrecognized.1 (str "FOOBAR") [.bulkString (str "x")] (by decide),
   c8_unrecognized.2 [(str "k", [str "m"])]⟩

/-! ### C9: SimpleError decoding is UTF-8-lossy but never fails on UTF-8 -/

theorem findCRLF_append : ∀ (s r : Bytes), noCR s = true →
    findCRLF (s ++ 13 :: 10 :: r) = some s.length := by
  intro s
  induction s with
  | nil => intro r _; rfl
  | cons b bs ih =>
    intro r hs
    simp only [noCR, List.all_cons, Bool.and_eq_true, Bool.not_eq_true',
      decide_eq_false_iff_not] at hs
    obtain ⟨hb, hbs⟩ := hs
    have ih2 := ih r (by simp [noCR, hbs])
    cases bs with
    | nil =>
      simp [findCRLF, hb]
    | cons c cs =>
      simp only [List.cons_append]
      rw [findCRLF]
      simp only [List.cons_append] at ih2
      simp [hb, ih2]

/-- C9: decoding `-` ++ payload ++ CRLF by `SimpleError::decode` succeeds for
every payload without CR — even when the payload is not valid UTF-8 — yielding
the `from_utf8_lossy` image of the payload: valid UTF-8 payloads come back
unchanged, while invalid byte sequences are replaced by U+FFFD (`EF BF BD`), so
the decode is lossy rather than an error; concretely, the non-UTF-8 payload
`[0xFF]` decodes to the replacement character. -/
theorem c9_simple_error_lossy :
    (∀ p : Bytes, noCR p = true →
      SimpleError.decode ([45] ++ p ++ crlf) = .ok (utf8Lossy p, [])) ∧
    (∀ p : Bytes, isValidUtf8 p = true → utf8Lossy p = p) ∧
    SimpleError.decode ([45] ++ [255] ++ crlf) = .ok ([239, 191, 189], []) ∧
    isValidUtf8 [255] = false ∧
    utf8Lossy [255] ≠ [255] := by
  have hmain : ∀ p : Bytes, noCR p = true →
      SimpleError.decode ([45] ++ p ++ crlf) = .ok (utf8Lossy p, []) := by
    intro p hp
    have hnoCR : noCR (45 :: p) = true := by
      simp only [noCR, List.all_cons] at *
      simp [hp]
    have hfind := findCRLF_append (45 :: p) [] hnoCR
    simp only [List.cons_append, List.append_nil, List.length_cons] at hfind
    simp only [SimpleError.decode, extractSimpleFrameData, crlf, List.cons_append,
      List.append_assoc, List.nil_append]
    have htake : ((45 : Nat) :: (p ++ [13, 10])).take ([45] : Bytes).length = [45] := by
      simp
    rw [show (45 : Nat) :: (p ++ 13 :: 10 :: []) = 45 :: (p ++ [13, 10]) from by simp]
      at hfind
    simp only [htake, if_pos rfl, hfind]
    have hdata : ((45 : Nat) :: (p ++ [13, 10])).take (p.length + 1 + 2) =
        45 :: (p ++ [13, 10]) := by
      apply List.take_of_length_le
      simp
    have hdrop : ((45 : Nat) :: (p ++ [13, 10])).drop (p.length + 1 + 2) = [] := by
      apply List.drop_eq_nil_of_le
      simp
    simp only [show p.length + 1 + 2 = p.length + 3 from rfl] at hdata hdrop
    simp only [if_true]
    have e1 : ∀ n : Nat, n + 1 + 2 = n + 3 := fun n => by omega
    simp only [e1, hdata, hdrop]
    simp only [List.drop_succ_cons, List.drop_zero, Nat.add_sub_cancel]
    rw [List.take_left]
  refine ⟨hmain, fun p => utf8Lossy_of_valid p, ?_, by decide, by decide⟩
  have h := hmain [255] (by decide)
  rw [h]
  have hloss : utf8Lossy [255] = [239, 191, 189] := by decide
  rw [hloss]

theorem c9_witness :
    SimpleError.decode ([45] ++ [255] ++ crlf) = .ok (utf8Lossy [255], []) ∧
    utf8Lossy (str "Error message") = str "Error message" :=
  ⟨c9_simple_error_lossy.1 [255] (by decide),
   c9_simple_error_lossy.2.1 (str "Error message") (by decide)⟩

/-! ### C10: derived frame equality is not reflexive at NaN -/

theorem itemsEqRust_refl_aux (n : Nat)
    (IH : ∀ f, frameDepth f ≤ n → noNaNFrame f = true → RespFrame.eqRust f f = true) :
    ∀ items, itemsDepth items ≤ n → itemsNoNaN items = true →
      itemsEqRust items items = true := by
  intro items
  induction items with
  | nil => intro _ _; rw [itemsEqRust]
  | cons f fs ih =>
    intro hd hn
    simp only [itemsNoNaN, Bool.and_eq_true] at hn
    rw [itemsDepth] at hd
    rw [itemsEqRust]
    rw [IH f (le_trans (le_max_left _ _) hd) hn.1,
      ih (le_trans (le_max_right _ _) hd) hn.2]
    rfl

theorem entriesEqRust_refl_aux (n : Nat)
    (IH : ∀ f, frameDepth f ≤ n → noNaNFrame f = true → RespFrame.eqRust f f = true) :
    ∀ entries, entriesDepth entries ≤ n → entriesNoNaN entries = true →
      entriesEqRust entries entries = true := by
  intro entries
  induction entries with
  | nil => intro _ _; rw [entriesEqRust]
  | cons e es ih =>
    obtain ⟨k, v⟩ := e
    intro hd hn
    simp only [entriesNoNaN, Bool.and_eq_true] at hn
    rw [entriesDepth] at hd
    rw [entriesEqRust]
    rw [IH v (le_trans (le_max_left _ _) hd) hn.1,
      ih (le_trans (le_max_right _ _) hd) hn.2]
    simp

theorem eqRust_refl (f : RespFrame) (h : noNaNFrame f = true) :
    RespFrame.eqRust f f = true := by
  suffices H : ∀ n f, frameDepth f ≤ n → noNaNFrame f = true →
      RespFrame.eqRust f f = true from H (frameDepth f) f le_rfl h
  intro n
  induction n with
  | zero =>
    intro f hd _
    have := frameDepth_pos f
    omega
  | succ n ih =>
    intro f hd hn
    cases f with
    | simpleString s => rw [RespFrame.eqRust]; simp
    | error s => rw [RespFrame.eqRust]; simp
    | integer i => rw [RespFrame.eqRust]; simp
    | bulkString b => rw [RespFrame.eqRust]; simp
    | nullBulkString => rw [RespFrame.eqRust]
    | nullArray => rw [RespFrame.eqRust]
    | null => rw [RespFrame.eqRust]
    | boolean b => rw [RespFrame.eqRust]; simp
    | double d =>
      simp only [noNaNFrame] at hn
      rw [RespFrame.eqRust]
      simp [F64.eqRust, hn]
    | array items =>
      simp only [noNaNFrame] at hn
      simp only [frameDepth] at hd
      rw [RespFrame.eqRust]
      exact itemsEqRust_refl_aux n ih items (by omega) hn
    | map entries =>
      simp only [noNaNFrame] at hn
      simp only [frameDepth] at hd
      rw [RespFrame.eqRust]
      exact entriesEqRust_refl_aux n ih entries (by omega) hn
    | set items =>
      simp only [noNaNFrame] at hn
      simp only [frameDepth] at hd
      rw [RespFrame.eqRust]
      exact itemsEqRust_refl_aux n ih items (by omega) hn

/-- The double parser for the NaN round-trip: Rust `"NaN".parse::<f64>()`
succeeds with a NaN. -/
def pdNaN : Bytes → Option F64 := fun l =>
  if l = str "NaN" then some f64NaN else none

/-- C10: the derived `PartialEq` on frames is not reflexive: `Double(NaN)` does
not equal itself (IEEE-754 `NaN != NaN`), and although decoding the encoding of
`Double(NaN)` reproduces the frame exactly (structurally), the round-trip
property stated with Rust `==` fails on it; on NaN-free frames the equality is
reflexive (structural and recursive). -/
theorem c10_nan_equality :
    RespFrame.eqRust (.double f64NaN) (.double f64NaN) = false ∧
    decodeFrame pdNaN (frameDepth (.double f64NaN)) (encodeFrame (.double f64NaN)) =
      .ok (.double f64NaN, []) ∧
    (∀ f : RespFrame, noNaNFrame f = true → RespFrame.eqRust f f = true) := by
  refine ⟨?_, ?_, fun f h => eqRust_refl f h⟩
  · rw [RespFrame.eqRust]
    simp [F64.eqRust, f64NaN]
  · have hOK : frameOK pdNaN (.double f64NaN) = true := by
      rw [frameOK]
      decide
    have h2 := decodeFrame_encodeFrame pdNaN (frameDepth (.double f64NaN))
      (.double f64NaN) [] hOK le_rfl
    simpa using h2

theorem c10_witness :
    RespFrame.eqRust (.array [.double f64OneTwoThree, .integer 3])
      (.array [.double f64OneTwoThree, .integer 3]) = true :=
  c10_nan_equality.2.2 (.array [.double f64OneTwoThree, .integer 3])
    (by simp only [noNaNFrame, itemsNoNaN, Bool.and_eq_true]
        and_intros <;> decide)

end RedisSpec
